import Mathlib

/- Shallow embedding of src/deskaid/tools/edit_file.py.

Python strings are modelled as lists of characters (`Str`).  Reading a
file in Python text mode performs universal-newline translation
(`univNl`); the platform is taken to be Linux, so writing in text mode
leaves characters unchanged (`os.linesep` is a bare line feed).  Paths
are taken to be already absolute (`os.path.abspath` is the identity on
absolute paths).  The filesystem is a flat association table from paths
to file contents together with a modification time; directories are not
modelled, so `os.makedirs` is a no-op here and `find_similar_file`
scans the table.  The two collaborators imported from `..common` —
`commit_changes` and `get_edit_snippet` — are not part of the sources
and are passed as function parameters. -/

abbrev Str := List Char

/-- The character class Python `str.rstrip()` strips: exactly the code
points c with `chr(c).strip() == ""`, i.e. U+0009..U+000D, U+001C..
U+0020, U+0085 (NEL), U+00A0 (NBSP), U+1680, U+2000..U+200A, U+2028,
U+2029, U+202F, U+205F and U+3000. -/
def pyIsSpace (c : Char) : Bool :=
  let n := c.toNat
  (0x09 ≤ n && n ≤ 0x0D) || (0x1C ≤ n && n ≤ 0x20) || n == 0x85 || n == 0xA0 ||
  n == 0x1680 || (0x2000 ≤ n && n ≤ 0x200A) || n == 0x2028 || n == 0x2029 ||
  n == 0x202F || n == 0x205F || n == 0x3000

def rstrip (l : Str) : Str :=
  (l.reverse.dropWhile pyIsSpace).reverse

/-- Python `s.split("\n")`: every line break separates, and a trailing
break yields a final empty piece; the empty string yields `[""]`. -/
def splitNl : Str → List Str
  | [] => [[]]
  | c :: rest =>
    if c = '\n' then [] :: splitNl rest
    else
      match splitNl rest with
      | [] => [[c]]
      | l :: ls => (c :: l) :: ls

/-- Python `"\n".join(...)`. -/
def joinNl : List Str → Str
  | [] => []
  | [l] => l
  | l :: ls => l ++ '\n' :: joinNl ls

/-- Does `x` occur in the list (Python `x in s` for a single character)? -/
def hasChar (x : Char) : Str → Bool
  | [] => false
  | c :: rest => c == x || hasChar x rest

/-- Python `needle in hay` for strings: substring containment. -/
def pyContains : Str → Str → Bool
  | [], needle => needle.isPrefixOf []
  | c :: rest, needle => needle.isPrefixOf (c :: rest) || pyContains rest needle

/-- Number of positions at which `needle` occurs in the list: the
mathematical, possibly overlapping, occurrence count. -/
def posCount (needle : Str) : Str → Nat
  | [] => if needle.isPrefixOf [] then 1 else 0
  | c :: rest => (if needle.isPrefixOf (c :: rest) then 1 else 0) + posCount needle rest

/-- Python `str.count` scans left to right and skips over each match, so
it counts non-overlapping occurrences.  The fuel argument only bounds
the scan: every step consumes at least one character of the text, so
fuel equal to the length of the text is always enough. -/
def pyCountFuel (n : Char) (ns : Str) : Nat → Str → Nat
  | _, [] => 0
  | 0, _ :: _ => 0
  | fuel + 1, c :: rest =>
    if (n :: ns).isPrefixOf (c :: rest) then 1 + pyCountFuel n ns fuel (rest.drop ns.length)
    else pyCountFuel n ns fuel rest

/-- Python `hay.count(needle)`; for the empty needle Python returns
`len(hay) + 1`. -/
def pyCount (needle hay : Str) : Nat :=
  match needle with
  | [] => hay.length + 1
  | n :: ns => pyCountFuel n ns hay.length hay

/-- Python `hay.replace(needle, repl, 1)` for a nonempty needle: replace
the first occurrence and stop. -/
def replaceFirstAux (n : Char) (ns repl : Str) : Str → Str
  | [] => []
  | c :: rest =>
    if (n :: ns).isPrefixOf (c :: rest) then repl ++ rest.drop ns.length
    else c :: replaceFirstAux n ns repl rest

/-- Python `hay.replace(needle, repl, 1)`; with an empty needle Python
inserts `repl` before the first character. -/
def replaceFirst (hay needle repl : Str) : Str :=
  match needle with
  | [] => repl ++ hay
  | n :: ns => replaceFirstAux n ns repl hay

/-- Python `hay.replace(needle, repl)` (all occurrences, scanning left
to right, skipping over each match).  Fuel as in `pyCountFuel`. -/
def replaceAllFuel (n : Char) (ns repl : Str) : Nat → Str → Str
  | _, [] => []
  | 0, l => l
  | fuel + 1, c :: rest =>
    if (n :: ns).isPrefixOf (c :: rest) then repl ++ replaceAllFuel n ns repl fuel (rest.drop ns.length)
    else c :: replaceAllFuel n ns repl fuel rest

def replaceAll (needle repl hay : Str) : Str :=
  match needle with
  | [] => hay  -- never used with an empty needle below
  | n :: ns => replaceAllFuel n ns repl hay.length hay

/-- Python `content.split(old_string)[0]` for a nonempty separator:
the text before the first occurrence (the whole text when there is
none). -/
def prefixBeforeAux (n : Char) (ns : Str) : Str → Str
  | [] => []
  | c :: rest =>
    if (n :: ns).isPrefixOf (c :: rest) then []
    else c :: prefixBeforeAux n ns rest

def prefixBefore (needle hay : Str) : Str :=
  match needle with
  | [] => []  -- Python raises on an empty separator; never reached with a nonempty needle
  | n :: ns => prefixBeforeAux n ns hay

/-- Universal-newline translation performed by `open(path, "r")`:
a CRLF pair and a lone CR both read back as a line feed. -/
def univNl : Str → Str
  | [] => []
  | [c] => if c = '\r' then ['\n'] else [c]
  | c :: d :: rest =>
    if c = '\r' then
      if d = '\n' then '\n' :: univNl rest else '\n' :: univNl (d :: rest)
    else c :: univNl (d :: rest)

inductive LineEnding where
  | CRLF
  | LF
deriving DecidableEq

/-- `detect_line_endings`: the raw bytes contain a CRLF pair anywhere
iff the whole file is treated as CRLF. -/
def detect_line_endings (data : Str) : LineEnding :=
  if pyContains data ['\r', '\n'] then LineEnding.CRLF else LineEnding.LF

/-- `write_text_content`: normalize the line endings of `content` to the
requested style, then write (writing itself is the identity on Linux).
The result is the character content left on disk. -/
def write_text_content (content : Str) (line_endings : LineEnding) : Str :=
  match line_endings with
  | LineEnding.CRLF => replaceAll ['\n'] ['\r', '\n'] content
  | LineEnding.LF => replaceAll ['\r', '\n'] ['\n'] content

structure FileInfo where
  data : Str
  mtime : Nat
deriving DecidableEq

structure SysState where
  files : List (Str × FileInfo)
deriving DecidableEq

def lookupEntries : List (Str × FileInfo) → Str → Option FileInfo
  | [], _ => none
  | (q, fi) :: rest, p => if q = p then some fi else lookupEntries rest p

def lookupFile (st : SysState) (p : Str) : Option FileInfo :=
  lookupEntries st.files p

def setEntries : List (Str × FileInfo) → Str → FileInfo → List (Str × FileInfo)
  | [], p, fi => [(p, fi)]
  | (q, old) :: rest, p, fi =>
    if q = p then (p, fi) :: rest else (q, old) :: setEntries rest p fi

def setFile (st : SysState) (p : Str) (fi : FileInfo) : SysState :=
  ⟨setEntries st.files p fi⟩

/-- The `read_file_timestamps` dictionary. -/
abbrev Timestamps := List (Str × Nat)

def tsLookup : Timestamps → Str → Option Nat
  | [], _ => none
  | (q, t) :: rest, p => if q = p then some t else tsLookup rest p

def tsInsert : Timestamps → Str → Nat → Timestamps
  | [], p, v => [(p, v)]
  | (q, w) :: rest, p, v =>
    if q = p then (p, v) :: rest else (q, w) :: tsInsert rest p v

/-- Python truthiness of the optional dictionary: `None` and the empty
dictionary are both falsy, so `if read_file_timestamps and ...` skips
the freshness checks for an empty table as well. -/
def tsTruthy : Option Timestamps → Bool
  | none => false
  | some [] => false
  | some (_ :: _) => true

def tsHas (ts : Option Timestamps) (p : Str) : Bool :=
  match ts with
  | none => false
  | some l => (tsLookup l p).isSome

/-- Python `read_file_timestamps.get(path, 0)`. -/
def tsGetD (ts : Option Timestamps) (p : Str) (d : Nat) : Nat :=
  match ts with
  | none => d
  | some l => (tsLookup l p).getD d

/-- `d[path] = os.stat(path).st_mtime` after the write; Python updates
the dictionary whenever it was supplied (`is not None`), even when it
is empty. -/
def tsUpdate (ts : Option Timestamps) (p : Str) (m : Nat) : Option Timestamps :=
  match ts with
  | none => none
  | some l => some (tsInsert l p m)

/-- `os.path.dirname`. -/
def dirnameOf (p : Str) : Str :=
  let head := (p.reverse.dropWhile (fun c => !(c == '/'))).reverse
  if head.all (· == '/') then head
  else (head.reverse.dropWhile (· == '/')).reverse

/-- `os.path.basename`. -/
def basenameOf (p : Str) : Str :=
  (p.reverse.takeWhile (fun c => !(c == '/'))).reverse

/-- The stem of `os.path.splitext`: drop the extension after the last
dot of the basename, ignoring leading dots. -/
def stemOf (b : Str) : Str :=
  let lead := b.takeWhile (· == '.')
  let rest := b.drop lead.length
  if hasChar '.' rest then
    lead ++ ((rest.reverse.dropWhile (fun c => !(c == '.'))).drop 1).reverse
  else b

/-- `os.path.join(d, f)` for the shapes produced by `dirname`. -/
def joinPath (d f : Str) : Str :=
  if d = [] then f
  else if d.reverse.head? = some '/' then d ++ f
  else d ++ '/' :: f

/-- `find_similar_file`: a file in the same directory whose name starts
with the stem of the missing file followed by a dot.  Directories are
not modelled, so a directory exists iff some file of the table lives in
it, and `os.listdir` returns the table's basenames in table order. -/
def find_similar_file (st : SysState) (p : Str) : Option Str :=
  let directory := dirnameOf p
  let entries := st.files.filter (fun e => dirnameOf e.1 == directory)
  match entries with
  | [] => none
  | _ :: _ =>
    let target := basenameOf p
    let base := stemOf target
    match (entries.map (fun e => basenameOf e.1)).filter
        (fun f => (base ++ ['.']).isPrefixOf f && !(f == target)) with
    | [] => none
    | f :: _ => some (joinPath directory f)

/-- `rstrip`-tolerant comparison of the expected lines against the
first lines of the window, exactly as the inner `for j` loop does. -/
def rstripMatchAt : List Str → List Str → Bool
  | _, [] => true
  | [], _ :: _ => false
  | c :: cs, o :: os => (rstrip c == rstrip o) && rstripMatchAt cs os

/-- The sliding-window scan of the whitespace-tolerant fallback: the
first index whose window matches after right-trimming yields the
un-normalized text `"\n".join(content_lines[i : i + len(old_lines)])`;
when no window matches, `old_string` is left unchanged (`none`). -/
def findActual (ols : List Str) : List Str → Option Str
  | [] => if rstripMatchAt [] ols then some (joinNl (([] : List Str).take ols.length)) else none
  | c :: rest =>
    if rstripMatchAt (c :: rest) ols then some (joinNl ((c :: rest).take ols.length))
    else findActual ols rest

structure Hunk where
  oldStart : Nat
  oldLines : Nat
  newStart : Nat
  newLines : Nat
  lines : List Str
deriving DecidableEq

/-- `apply_edit`: re-read the file, replace the first occurrence, and
build the single display hunk.  With an empty `old_string` distinct
from `new_string`, Python's `content.split("")` raises ValueError
("empty separator"), modelled as `none`. -/
def apply_edit (st : SysState) (file_path old_string new_string : Str) :
    Option (List Hunk × Str) :=
  let content := match lookupFile st file_path with
    | some fi => univNl fi.data
    | none => []
  let updated_file := replaceFirst content old_string new_string
  if old_string = new_string then some ([], updated_file)
  else if old_string = [] then none
  else
    let old_lines := splitNl old_string
    let new_lines := splitNl new_string
    let line_num := (prefixBefore old_string content).count '\n'
    some ([{ oldStart := line_num + 1, oldLines := old_lines.length,
             newStart := line_num + 1, newLines := new_lines.length,
             lines := old_lines.map (fun l => '-' :: l) ++ new_lines.map (fun l => '+' :: l) }],
          updated_file)

def noChangesMsg : Str :=
  "No changes to make: old_string and new_string are exactly the same.".data

def cannotCreateMsg : Str :=
  "Cannot create new file - file already exists.".data

def createdMsg (p : Str) : Str :=
  "Successfully created ".data ++ p

def fileMissingMsg (st : SysState) (p : Str) : Str :=
  match find_similar_file st p with
  | some s => "Error: File does not exist: ".data ++ p ++ " Did you mean ".data ++ s ++ "?".data
  | none => "Error: File does not exist: ".data ++ p

def notebookMsg : Str :=
  "Error: File is a Jupyter Notebook. Use the NotebookEditTool to edit this file.".data

def neverReadMsg : Str :=
  "Error: File has not been read yet. Read it first before writing to it.".data

def staleMsg : Str :=
  "Error: File has been modified since read, either by the user or by a linter. Read it again before attempting to write it.".data

def notFoundMsg : Str :=
  "Error: String to replace not found in file.".data

def ambiguousMsg (n : Nat) : Str :=
  "Error: Found ".data ++ (toString n).data ++ " matches of the string to replace. For safety, this tool only supports replacing exactly one occurrence at a time. Add more lines of context to your edit and try again.".data

def emptySepMsg : Str :=
  "Error editing file: empty separator".data

def gitMsg (r : Bool × Str) (description : Str) : Str :=
  if r.1 then "\n\nChanges committed to git: ".data ++ description
  else "\n\nFailed to commit changes to git: ".data ++ r.2

def editedMsg (p snip gitm : Str) : Str :=
  "Successfully edited ".data ++ p ++ "\n\nHere".data ++ '\x27' :: "s a snippet of the edited file:\n".data ++ snip ++ gitm

/-- The tail of `edit_file_content` once the effective `old_string` is
fixed (after the optional whitespace-tolerant fallback): the uniqueness
check, `apply_edit`, the write, the timestamp refresh, the snippet and
the commit.  `content` and `le` are the already-read text and the
already-detected line-ending style, and `m` is the modification time
the write will get. -/
def edit_apply_phase (st : SysState) (file_path old_string new_string : Str)
    (ts : Option Timestamps) (description : Str)
    (commit : Str → Str → Bool × Str) (snippet : Str → Str → Str → Str)
    (m : Nat) (content : Str) (le : LineEnding) : SysState × Option Timestamps × Str :=
  if old_string ≠ [] ∧ 1 < pyCount old_string content then
    (st, ts, ambiguousMsg (pyCount old_string content))
  else
    match apply_edit st file_path old_string new_string with
    | none => (st, ts, emptySepMsg)
    | some (_, updated_file) =>
      (setFile st file_path ⟨write_text_content updated_file le, m⟩,
       tsUpdate ts file_path m,
       editedMsg file_path (snippet content old_string new_string)
         (gitMsg (commit file_path description) description))

/-- `edit_file_content`, returning the final filesystem, the final
timestamp table and the message.  The exception handler at the bottom
of the Python function is unreachable in this model: every modelled
operation is total, and the one genuinely reachable raise (the empty
separator inside `apply_edit`) is propagated explicitly. -/
def edit_file_content (st : SysState) (file_path old_string new_string : Str)
    (ts : Option Timestamps) (description : Str)
    (commit : Str → Str → Bool × Str) (snippet : Str → Str → Str → Str)
    (m : Nat) : SysState × Option Timestamps × Str :=
  if old_string = new_string then (st, ts, noChangesMsg)
  else if old_string = [] then
    match lookupFile st file_path with
    | some _ => (st, ts, cannotCreateMsg)
    | none =>
      (setFile st file_path ⟨write_text_content new_string LineEnding.LF, m⟩,
       ts, createdMsg file_path)
  else
    match lookupFile st file_path with
    | none => (st, ts, fileMissingMsg st file_path)
    | some fi =>
      if List.isSuffixOf ".ipynb".data file_path then (st, ts, notebookMsg)
      else if tsTruthy ts = true ∧ tsHas ts file_path = false then (st, ts, neverReadMsg)
      else if tsTruthy ts = true ∧ tsGetD ts file_path 0 < fi.mtime then (st, ts, staleMsg)
      else
        let le := detect_line_endings fi.data
        let content := univNl fi.data
        if old_string ≠ [] ∧ pyContains content old_string = false then
          if pyContains (joinNl ((splitNl content).map rstrip))
              (joinNl ((splitNl old_string).map rstrip)) then
            edit_apply_phase st file_path
              ((findActual (splitNl old_string) (splitNl content)).getD old_string)
              new_string ts description commit snippet m content le
          else (st, ts, notFoundMsg)
        else
          edit_apply_phase st file_path old_string new_string ts description commit snippet m content le

/-- "No bare carriage return": every CR is immediately followed by a
line feed, i.e. the line breaks of the text are only LF or CRLF. -/
def noBareCR : Str → Bool
  | [] => true
  | [c] => !(c == '\r')
  | c :: d :: rest =>
    if c = '\r' then (d == '\n') && noBareCR rest
    else noBareCR (d :: rest)

/-- Every line break of the text is the two-character CRLF sequence:
each CR is followed by an LF and each LF is preceded by a CR. -/
def breaksAreCRLF : Str → Bool
  | [] => true
  | [c] => !(c == '\r') && !(c == '\n')
  | c :: d :: rest =>
    if c = '\r' then (d == '\n') && breaksAreCRLF rest
    else if c = '\n' then false
    else breaksAreCRLF (d :: rest)

/-- The shape every returned message has (the spec's §6 message
contract, with the two non-"Error"-prefixed outcomes listed
explicitly). -/
def messageShapeOK (r : Str) : Prop :=
  "Successfully created ".data.isPrefixOf r = true ∨
  "Successfully edited ".data.isPrefixOf r = true ∨
  "Error: ".data.isPrefixOf r = true ∨
  "Error editing file: ".data.isPrefixOf r = true ∨
  r = noChangesMsg ∨
  r = cannotCreateMsg

/- ------------------------------------------------------------------ -/
/- Generic lemmas about the string primitives. -/

theorem isPrefixOf_self_append (a c : Str) : a.isPrefixOf (a ++ c) = true := by
  induction a with
  | nil => simp [List.isPrefixOf]
  | cons x xs ih => simp [List.isPrefixOf, ih]

theorem isPrefixOf_split : ∀ {a l : Str}, a.isPrefixOf l = true → ∃ t, l = a ++ t := by
  intro a
  induction a with
  | nil => intro l _; exact ⟨l, rfl⟩
  | cons x xs ih =>
    intro l h
    cases l with
    | nil => simp [List.isPrefixOf] at h
    | cons y ys =>
      simp only [List.isPrefixOf, Bool.and_eq_true, beq_iff_eq] at h
      obtain ⟨t, ht⟩ := ih h.2
      exact ⟨t, by simp [h.1, ht]⟩

theorem isPrefixOf_append_of {a b : Str} (c : Str) (h : a.isPrefixOf b = true) :
    a.isPrefixOf (b ++ c) = true := by
  obtain ⟨t, ht⟩ := isPrefixOf_split h
  subst ht
  rw [List.append_assoc]
  exact isPrefixOf_self_append a (t ++ c)

theorem isPrefixOf_append_cases :
    ∀ (a b c : Str), a.isPrefixOf (b ++ c) = true →
      b.isPrefixOf a = true ∨ a.isPrefixOf b = true := by
  intro a
  induction a with
  | nil => intro b c _; right; simp [List.isPrefixOf]
  | cons x xs ih =>
    intro b c h
    cases b with
    | nil => left; simp [List.isPrefixOf]
    | cons y ys =>
      simp only [List.cons_append, List.isPrefixOf, Bool.and_eq_true, beq_iff_eq] at h
      rcases ih ys c h.2 with h' | h'
      · left; simp [List.isPrefixOf, h.1, h']
      · right; simp [List.isPrefixOf, h.1, h']

theorem pyContains_iff_posCount :
    ∀ (hay needle : Str), pyContains hay needle = false ↔ posCount needle hay = 0 := by
  intro hay needle
  induction hay with
  | nil =>
    cases h : needle.isPrefixOf ([] : Str) with
    | true => simp [pyContains, posCount, h]
    | false => simp [pyContains, posCount, h]
  | cons c rest ih =>
    cases h : needle.isPrefixOf (c :: rest) with
    | true => simp [pyContains, posCount, h]
    | false => simp [pyContains, posCount, h, ih]

theorem posCount_drop_le (needle : Str) :
    ∀ (hay : Str) (k : Nat), posCount needle (hay.drop k) ≤ posCount needle hay := by
  intro hay
  induction hay with
  | nil => intro k; simp
  | cons c rest ih =>
    intro k
    cases k with
    | zero => simp
    | succ k =>
      calc posCount needle ((c :: rest).drop (k + 1)) = posCount needle (rest.drop k) := rfl
        _ ≤ posCount needle rest := ih k
        _ ≤ posCount needle (c :: rest) := Nat.le_add_left _ _

theorem pyCountFuel_eq_zero (n : Char) (ns : Str) :
    ∀ (fuel : Nat) (l : Str), pyContains l (n :: ns) = false →
      pyCountFuel n ns fuel l = 0 := by
  intro fuel
  induction fuel with
  | zero => intro l _; cases l <;> rfl
  | succ fuel ih =>
    intro l h
    cases l with
    | nil => rfl
    | cons c rest =>
      simp only [pyContains, Bool.or_eq_false_iff] at h
      simp only [pyCountFuel, h.1, if_false]
      exact ih rest h.2

theorem pyCountFuel_eq_one (n : Char) (ns : Str) :
    ∀ (fuel : Nat) (l : Str), posCount (n :: ns) l = 1 → l.length ≤ fuel →
      pyCountFuel n ns fuel l = 1 := by
  intro fuel
  induction fuel with
  | zero =>
    intro l h hl
    cases l with
    | nil => simp [posCount, List.isPrefixOf] at h
    | cons c rest => simp at hl
  | succ fuel ih =>
    intro l h hl
    cases l with
    | nil => simp [posCount, List.isPrefixOf] at h
    | cons c rest =>
      by_cases hp : (n :: ns).isPrefixOf (c :: rest) = true
      · have hrest : posCount (n :: ns) rest = 0 := by
          simp [posCount, hp] at h; omega
        have hdrop : posCount (n :: ns) (rest.drop ns.length) = 0 :=
          Nat.le_zero.mp (hrest ▸ posCount_drop_le (n :: ns) rest ns.length)
        have hcon : pyContains (rest.drop ns.length) (n :: ns) = false :=
          (pyContains_iff_posCount _ _).mpr hdrop
        simp only [pyCountFuel, hp, if_true]
        rw [pyCountFuel_eq_zero n ns fuel _ hcon]
      · have hp' : (n :: ns).isPrefixOf (c :: rest) = false := by
          cases hx : (n :: ns).isPrefixOf (c :: rest) <;> simp [hx] at hp ⊢
        have hrest : posCount (n :: ns) rest = 1 := by
          simp [posCount, hp'] at h; omega
        simp only [pyCountFuel, hp', if_false]
        exact ih rest hrest (by simp only [List.length_cons] at hl; omega)

theorem pyCount_eq_one {n : Char} {ns hay : Str} (h : posCount (n :: ns) hay = 1) :
    pyCount (n :: ns) hay = 1 :=
  pyCountFuel_eq_one n ns hay.length hay h (Nat.le_refl _)

theorem pyContains_of_posCount_one {n : Char} {ns hay : Str}
    (h : posCount (n :: ns) hay = 1) : pyContains hay (n :: ns) = true := by
  cases hx : pyContains hay (n :: ns) with
  | true => rfl
  | false => rw [(pyContains_iff_posCount hay (n :: ns)).mp hx] at h; cases h

theorem pyCount_eq_zero {n : Char} {ns hay : Str}
    (h : pyContains hay (n :: ns) = false) : pyCount (n :: ns) hay = 0 :=
  pyCountFuel_eq_zero n ns hay.length hay h

theorem firstOcc_decomp (n : Char) (ns repl : Str) :
    ∀ (hay : Str), pyContains hay (n :: ns) = true →
      ∃ pre post, hay = pre ++ (n :: ns) ++ post ∧
        replaceFirst hay (n :: ns) repl = pre ++ repl ++ post ∧
        prefixBefore (n :: ns) hay = pre := by
  intro hay
  induction hay with
  | nil => intro h; simp [pyContains, List.isPrefixOf] at h
  | cons c rest ih =>
    intro h
    by_cases hp : (n :: ns).isPrefixOf (c :: rest) = true
    · obtain ⟨t, ht⟩ := isPrefixOf_split hp
      have hc : c = n := by
        have := ht; simp only [List.cons_append, List.cons.injEq] at this
        exact this.1
      have hrest : rest = ns ++ t := by
        have := ht; simp only [List.cons_append, List.cons.injEq] at this
        exact this.2
      refine ⟨[], t, by simpa using ht, ?_, ?_⟩
      · simp only [replaceFirst, replaceFirstAux, hp, if_true]
        rw [hrest, List.drop_left]
        simp
      · simp [prefixBefore, prefixBeforeAux, hp]
    · have hp' : (n :: ns).isPrefixOf (c :: rest) = false := by
        cases hx : (n :: ns).isPrefixOf (c :: rest) <;> simp [hx] at hp ⊢
      have hrest : pyContains rest (n :: ns) = true := by
        simp only [pyContains, hp', Bool.false_or] at h
        exact h
      obtain ⟨pre, post, h1, h2, h3⟩ := ih hrest
      refine ⟨c :: pre, post, by simp [h1], ?_, ?_⟩
      · simpa [replaceFirst, replaceFirstAux, hp'] using h2
      · simpa [prefixBefore, prefixBeforeAux, hp'] using h3

theorem hasChar_append (x : Char) (a b : Str) :
    hasChar x (a ++ b) = (hasChar x a || hasChar x b) := by
  induction a with
  | nil => simp [hasChar]
  | cons c rest ih => simp [hasChar, ih, Bool.or_assoc]

theorem isPrefixOf_append_eq_false {a b : Str} (c : Str)
    (h1 : b.isPrefixOf a = false) (h2 : a.isPrefixOf b = false) :
    a.isPrefixOf (b ++ c) = false := by
  cases hx : a.isPrefixOf (b ++ c) with
  | false => rfl
  | true =>
    rcases isPrefixOf_append_cases a b c hx with h | h
    · simp [h1] at h
    · simp [h2] at h

theorem univNl_of_noCR : ∀ (l : Str), hasChar '\r' l = false → univNl l = l := by
  intro l
  induction l using univNl.induct <;> simp_all [univNl, hasChar]

theorem pyContains_crlf_eq_false : ∀ (l : Str), hasChar '\r' l = false →
    pyContains l ['\r', '\n'] = false := by
  intro l
  induction l with
  | nil => intro _; rfl
  | cons c rest ih =>
    intro h
    simp only [hasChar, Bool.or_eq_false_iff, beq_eq_false_iff_ne] at h
    have h1 : ('\r' == c) = false := beq_eq_false_iff_ne.mpr (Ne.symm h.1)
    simp [pyContains, List.isPrefixOf, h1, ih h.2]

theorem detect_of_noCR (l : Str) (h : hasChar '\r' l = false) :
    detect_line_endings l = LineEnding.LF := by
  simp [detect_line_endings, pyContains_crlf_eq_false l h]

theorem replaceAllFuel_lf_id : ∀ (fuel : Nat) (l : Str), hasChar '\r' l = false →
    replaceAllFuel '\r' ['\n'] ['\n'] fuel l = l := by
  intro fuel
  induction fuel with
  | zero => intro l _; cases l <;> rfl
  | succ fuel ih =>
    intro l h
    cases l with
    | nil => rfl
    | cons c rest =>
      simp only [hasChar, Bool.or_eq_false_iff, beq_eq_false_iff_ne] at h
      have h1 : ('\r' == c) = false := beq_eq_false_iff_ne.mpr (Ne.symm h.1)
      have hp : (['\r', '\n'] : Str).isPrefixOf (c :: rest) = false := by
        simp [List.isPrefixOf, h1]
      simp [replaceAllFuel, hp, ih rest h.2]

theorem write_LF_id (l : Str) (h : hasChar '\r' l = false) :
    write_text_content l LineEnding.LF = l :=
  replaceAllFuel_lf_id l.length l h

theorem replaceAllFuel_cons_pos (n : Char) (ns repl : Str) (fuel : Nat) (c : Char) (rest : Str)
    (hp : (n :: ns).isPrefixOf (c :: rest) = true) :
    replaceAllFuel n ns repl (fuel + 1) (c :: rest)
      = repl ++ replaceAllFuel n ns repl fuel (rest.drop ns.length) := by
  simp [replaceAllFuel, hp]

theorem replaceAllFuel_cons_neg (n : Char) (ns repl : Str) (fuel : Nat) (c : Char) (rest : Str)
    (hp : (n :: ns).isPrefixOf (c :: rest) = false) :
    replaceAllFuel n ns repl (fuel + 1) (c :: rest)
      = c :: replaceAllFuel n ns repl fuel rest := by
  simp [replaceAllFuel, hp]

theorem noBareCR_cons_of_ne (c : Char) (l : Str) (hc : c ≠ '\r') :
    noBareCR (c :: l) = noBareCR l := by
  cases l with
  | nil => simp [noBareCR, beq_eq_false_iff_ne.mpr hc]
  | cons d rest => simp [noBareCR, hc]

theorem noBareCR_cr (l : Str) (h : noBareCR ('\r' :: l) = true) :
    ∃ l2, l = '\n' :: l2 ∧ noBareCR l2 = true := by
  cases l with
  | nil => simp [noBareCR] at h
  | cons d rest =>
    simp [noBareCR] at h
    exact ⟨rest, by simp [h.1], h.2⟩

theorem breaksAreCRLF_crlf (l : Str) :
    breaksAreCRLF ('\r' :: '\n' :: l) = breaksAreCRLF l := by
  simp [breaksAreCRLF]

theorem breaksAreCRLF_cons_of_ne (c : Char) (l : Str) (h1 : c ≠ '\r') (h2 : c ≠ '\n') :
    breaksAreCRLF (c :: l) = breaksAreCRLF l := by
  cases l with
  | nil => simp [breaksAreCRLF, beq_eq_false_iff_ne.mpr h1, beq_eq_false_iff_ne.mpr h2]
  | cons d rest => simp [breaksAreCRLF, h1, h2]

theorem lf_write_noCR : ∀ (fuel : Nat) (l : Str), noBareCR l = true → l.length ≤ fuel →
    hasChar '\r' (replaceAllFuel '\r' ['\n'] ['\n'] fuel l) = false := by
  intro fuel
  induction fuel with
  | zero =>
    intro l h hl
    cases l with
    | nil => rfl
    | cons c rest => simp at hl
  | succ fuel ih =>
    intro l h hl
    cases l with
    | nil => rfl
    | cons c rest =>
      by_cases hc : c = '\r'
      · subst hc
        obtain ⟨rest2, hr, h2⟩ := noBareCR_cr rest h
        subst hr
        have hp : (['\r', '\n'] : Str).isPrefixOf ('\r' :: '\n' :: rest2) = true := by
          simp [List.isPrefixOf]
        rw [replaceAllFuel_cons_pos '\r' ['\n'] ['\n'] fuel '\r' ('\n' :: rest2) hp]
        have hdrop : (('\n' :: rest2).drop (['\n'] : Str).length) = rest2 := by simp
        rw [hdrop]
        simp only [List.cons_append, List.nil_append, hasChar]
        rw [show ('\n' == '\r') = false from by decide, Bool.false_or]
        exact ih rest2 h2 (by simp only [List.length_cons] at hl; omega)
      · have h1 : ('\r' == c) = false := beq_eq_false_iff_ne.mpr (Ne.symm hc)
        have hp : (['\r', '\n'] : Str).isPrefixOf (c :: rest) = false := by
          simp [List.isPrefixOf, h1]
        have hrest : noBareCR rest = true := by
          rw [noBareCR_cons_of_ne c rest hc] at h; exact h
        rw [replaceAllFuel_cons_neg '\r' ['\n'] ['\n'] fuel c rest hp]
        simp only [hasChar]
        rw [beq_eq_false_iff_ne.mpr hc, Bool.false_or]
        exact ih rest hrest (by simp only [List.length_cons] at hl; omega)

theorem crlf_write_breaks : ∀ (fuel : Nat) (l : Str), hasChar '\r' l = false → l.length ≤ fuel →
    breaksAreCRLF (replaceAllFuel '\n' [] ['\r', '\n'] fuel l) = true := by
  intro fuel
  induction fuel with
  | zero =>
    intro l h hl
    cases l with
    | nil => rfl
    | cons c rest => simp at hl
  | succ fuel ih =>
    intro l h hl
    cases l with
    | nil => rfl
    | cons c rest =>
      simp only [hasChar, Bool.or_eq_false_iff, beq_eq_false_iff_ne] at h
      by_cases hc : c = '\n'
      · subst hc
        have hp : (['\n'] : Str).isPrefixOf ('\n' :: rest) = true := by
          simp [List.isPrefixOf]
        rw [replaceAllFuel_cons_pos '\n' [] ['\r', '\n'] fuel '\n' rest hp]
        have hdrop : (rest.drop ([] : Str).length) = rest := by simp
        rw [hdrop]
        simp only [List.cons_append, List.nil_append]
        rw [breaksAreCRLF_crlf]
        exact ih rest h.2 (by simp only [List.length_cons] at hl; omega)
      · have h1 : ('\n' == c) = false := beq_eq_false_iff_ne.mpr (Ne.symm hc)
        have hp : (['\n'] : Str).isPrefixOf (c :: rest) = false := by
          simp [List.isPrefixOf, h1]
        rw [replaceAllFuel_cons_neg '\n' [] ['\r', '\n'] fuel c rest hp]
        rw [breaksAreCRLF_cons_of_ne c _ h.1 hc]
        exact ih rest h.2 (by simp only [List.length_cons] at hl; omega)

theorem lookupEntries_set_self : ∀ (es : List (Str × FileInfo)) (p : Str) (fi : FileInfo),
    lookupEntries (setEntries es p fi) p = some fi := by
  intro es p fi
  induction es with
  | nil => simp [setEntries, lookupEntries]
  | cons e rest ih =>
    obtain ⟨q, w⟩ := e
    by_cases hq : q = p
    · simp [setEntries, hq, lookupEntries]
    · simp [setEntries, hq, lookupEntries, ih]

theorem lookupFile_setFile_self (st : SysState) (p : Str) (fi : FileInfo) :
    lookupFile (setFile st p fi) p = some fi :=
  lookupEntries_set_self st.files p fi

/- ------------------------------------------------------------------ -/
/- Reduction lemmas for the branches of edit_file_content. -/

theorem edit_main_path
    (st : SysState) (p old_s new_s : Str) (ts : Option Timestamps) (desc : Str)
    (commit : Str → Str → Bool × Str) (snippet : Str → Str → Str → Str) (m : Nat)
    (fi : FileInfo)
    (hf : lookupFile st p = some fi)
    (hne : old_s ≠ new_s) (hS : old_s ≠ [])
    (hnb : List.isSuffixOf ".ipynb".data p = false)
    (hts1 : tsTruthy ts = true → tsHas ts p = true)
    (hts2 : tsTruthy ts = true → fi.mtime ≤ tsGetD ts p 0)
    (hcont : pyContains (univNl fi.data) old_s = true) :
    edit_file_content st p old_s new_s ts desc commit snippet m
      = edit_apply_phase st p old_s new_s ts desc commit snippet m (univNl fi.data)
          (detect_line_endings fi.data) := by
  have h1 : ¬(tsTruthy ts = true ∧ tsHas ts p = false) := by
    rintro ⟨a, b⟩; rw [hts1 a] at b; cases b
  have h2 : ¬(tsTruthy ts = true ∧ tsGetD ts p 0 < fi.mtime) := by
    rintro ⟨a, b⟩; exact absurd b (Nat.not_lt.mpr (hts2 a))
  simp [edit_file_content, hf, hne, hS, hnb, h1, h2, hcont]

theorem edit_fallback_found
    (st : SysState) (p old_s new_s : Str) (ts : Option Timestamps) (desc : Str)
    (commit : Str → Str → Bool × Str) (snippet : Str → Str → Str → Str) (m : Nat)
    (fi : FileInfo)
    (hf : lookupFile st p = some fi)
    (hne : old_s ≠ new_s) (hS : old_s ≠ [])
    (hnb : List.isSuffixOf ".ipynb".data p = false)
    (hts1 : tsTruthy ts = true → tsHas ts p = true)
    (hts2 : tsTruthy ts = true → fi.mtime ≤ tsGetD ts p 0)
    (hcont : pyContains (univNl fi.data) old_s = false)
    (hnorm : pyContains (joinNl ((splitNl (univNl fi.data)).map rstrip))
        (joinNl ((splitNl old_s).map rstrip)) = true) :
    edit_file_content st p old_s new_s ts desc commit snippet m
      = edit_apply_phase st p
          ((findActual (splitNl old_s) (splitNl (univNl fi.data))).getD old_s)
          new_s ts desc commit snippet m (univNl fi.data)
          (detect_line_endings fi.data) := by
  have h1 : ¬(tsTruthy ts = true ∧ tsHas ts p = false) := by
    rintro ⟨a, b⟩; rw [hts1 a] at b; cases b
  have h2 : ¬(tsTruthy ts = true ∧ tsGetD ts p 0 < fi.mtime) := by
    rintro ⟨a, b⟩; exact absurd b (Nat.not_lt.mpr (hts2 a))
  simp [edit_file_content, hf, hne, hS, hnb, h1, h2, hcont, hnorm]

theorem edit_fallback_notfound
    (st : SysState) (p old_s new_s : Str) (ts : Option Timestamps) (desc : Str)
    (commit : Str → Str → Bool × Str) (snippet : Str → Str → Str → Str) (m : Nat)
    (fi : FileInfo)
    (hf : lookupFile st p = some fi)
    (hne : old_s ≠ new_s) (hS : old_s ≠ [])
    (hnb : List.isSuffixOf ".ipynb".data p = false)
    (hts1 : tsTruthy ts = true → tsHas ts p = true)
    (hts2 : tsTruthy ts = true → fi.mtime ≤ tsGetD ts p 0)
    (hcont : pyContains (univNl fi.data) old_s = false)
    (hnorm : pyContains (joinNl ((splitNl (univNl fi.data)).map rstrip))
        (joinNl ((splitNl old_s).map rstrip)) = false) :
    edit_file_content st p old_s new_s ts desc commit snippet m = (st, ts, notFoundMsg) := by
  have h1 : ¬(tsTruthy ts = true ∧ tsHas ts p = false) := by
    rintro ⟨a, b⟩; rw [hts1 a] at b; cases b
  have h2 : ¬(tsTruthy ts = true ∧ tsGetD ts p 0 < fi.mtime) := by
    rintro ⟨a, b⟩; exact absurd b (Nat.not_lt.mpr (hts2 a))
  simp [edit_file_content, hf, hne, hS, hnb, h1, h2, hcont, hnorm]

theorem phase_ambiguous
    (st : SysState) (p old_s new_s : Str) (ts : Option Timestamps) (desc : Str)
    (commit : Str → Str → Bool × Str) (snippet : Str → Str → Str → Str) (m : Nat)
    (content : Str) (le : LineEnding)
    (hS : old_s ≠ []) (hcnt : 1 < pyCount old_s content) :
    edit_apply_phase st p old_s new_s ts desc commit snippet m content le
      = (st, ts, ambiguousMsg (pyCount old_s content)) := by
  simp [edit_apply_phase, hS, hcnt]

theorem phase_write
    (st : SysState) (p old_s new_s : Str) (ts : Option Timestamps) (desc : Str)
    (commit : Str → Str → Bool × Str) (snippet : Str → Str → Str → Str) (m : Nat)
    (content : Str) (le : LineEnding) (fi : FileInfo)
    (hf : lookupFile st p = some fi)
    (hok : old_s = new_s ∨ old_s ≠ [])
    (hcnt : ¬(1 < pyCount old_s content)) :
    edit_apply_phase st p old_s new_s ts desc commit snippet m content le
      = (setFile st p ⟨write_text_content (replaceFirst (univNl fi.data) old_s new_s) le, m⟩,
         tsUpdate ts p m,
         editedMsg p (snippet content old_s new_s) (gitMsg (commit p desc) desc)) := by
  by_cases he : old_s = new_s
  · subst he
    simp [edit_apply_phase, hcnt, apply_edit, hf]
  · rcases hok with he' | hS
    · exact absurd he' he
    · simp [edit_apply_phase, hcnt, apply_edit, hf, he, hS]

theorem editedMsg_starts (p snip gitm : Str) :
    "Successfully edited ".data.isPrefixOf (editedMsg p snip gitm) = true := by
  unfold editedMsg
  exact isPrefixOf_self_append _ _

theorem edit_create_eq (st : SysState) (p new_s : Str) (ts : Option Timestamps) (desc : Str)
    (commit : Str → Str → Bool × Str) (snippet : Str → Str → Str → Str) (m : Nat)
    (hnew : new_s ≠ []) (hmiss : lookupFile st p = none) :
    edit_file_content st p [] new_s ts desc commit snippet m
      = (setFile st p ⟨write_text_content new_s LineEnding.LF, m⟩, ts, createdMsg p) := by
  have hne : ([] : Str) ≠ new_s := fun h => hnew h.symm
  simp [edit_file_content, hne, hmiss]

theorem edit_exists_conflict (st : SysState) (p new_s : Str) (ts : Option Timestamps) (desc : Str)
    (commit : Str → Str → Bool × Str) (snippet : Str → Str → Str → Str) (m : Nat)
    (fi : FileInfo) (hnew : new_s ≠ []) (hf : lookupFile st p = some fi) :
    edit_file_content st p [] new_s ts desc commit snippet m = (st, ts, cannotCreateMsg) := by
  have hne : ([] : Str) ≠ new_s := fun h => hnew h.symm
  simp [edit_file_content, hne, hf]

/-- Claim C6: when `old_string` equals `new_string`, `edit_file_content`
returns the distinguished no-change message and leaves the filesystem
and the timestamp table untouched; the equation holds for every commit
collaborator and every snippet collaborator, so neither is ever
consulted. -/
theorem C6_noop (st : SysState) (p S : Str) (ts : Option Timestamps) (desc : Str)
    (commit : Str → Str → Bool × Str) (snippet : Str → Str → Str → Str) (m : Nat) :
    edit_file_content st p S S ts desc commit snippet m = (st, ts, noChangesMsg) := by
  simp [edit_file_content]

/-- Claim C5: with empty `old_string` and a distinct (hence nonempty)
`new_string`, a nonexistent target is created with exactly the
line-ending-normalized new text and the "Successfully created" message,
for every commit and snippet collaborator and every timestamp table
(none of which is consulted); an existing target fails with the
AlreadyExists message and nothing changes. -/
theorem C5_creation (st : SysState) (p new_s : Str) (ts : Option Timestamps) (desc : Str)
    (commit : Str → Str → Bool × Str) (snippet : Str → Str → Str → Str) (m : Nat)
    (hnew : new_s ≠ []) :
    (lookupFile st p = none →
      edit_file_content st p [] new_s ts desc commit snippet m
        = (setFile st p ⟨write_text_content new_s LineEnding.LF, m⟩, ts, createdMsg p)) ∧
    (∀ fi, lookupFile st p = some fi →
      edit_file_content st p [] new_s ts desc commit snippet m = (st, ts, cannotCreateMsg)) :=
  ⟨fun hmiss => edit_create_eq st p new_s ts desc commit snippet m hnew hmiss,
   fun fi hf => edit_exists_conflict st p new_s ts desc commit snippet m fi hnew hf⟩

/-- Witness for C5 at concrete inputs: creating "a.txt" in an empty
filesystem, and failing to create it when it already exists. -/
theorem C5_witness :
    edit_file_content ⟨[]⟩ "a.txt".data [] "hi\n".data none [] (fun _ _ => (true, []))
        (fun _ _ _ => []) 3
      = (setFile ⟨[]⟩ "a.txt".data ⟨write_text_content "hi\n".data LineEnding.LF, 3⟩, none,
         createdMsg "a.txt".data) ∧
    edit_file_content ⟨[("a.txt".data, ⟨"x".data, 0⟩)]⟩ "a.txt".data [] "hi".data none []
        (fun _ _ => (true, [])) (fun _ _ _ => []) 3
      = (⟨[("a.txt".data, ⟨"x".data, 0⟩)]⟩, none, cannotCreateMsg) :=
  ⟨(C5_creation ⟨[]⟩ "a.txt".data "hi\n".data none [] (fun _ _ => (true, []))
      (fun _ _ _ => []) 3 (by decide)).1 rfl,
   (C5_creation ⟨[("a.txt".data, ⟨"x".data, 0⟩)]⟩ "a.txt".data "hi".data none []
      (fun _ _ => (true, [])) (fun _ _ _ => []) 3 (by decide)).2 ⟨"x".data, 0⟩ (by decide)⟩

/-- Claim C10: creating a file (empty `old_string`, nonexistent target)
performs no notebook-category check and no freshness check: the path may
end in ".ipynb", the timestamp table may be arbitrary (in particular one
with no entry for the path), the creation succeeds, and the table is
returned entirely unchanged. -/
theorem C10_create_unchecked (st : SysState) (q new_s : Str) (ts : Option Timestamps)
    (desc : Str) (commit : Str → Str → Bool × Str) (snippet : Str → Str → Str → Str) (m : Nat)
    (hnew : new_s ≠ [])
    (hmiss : lookupFile st (q ++ ".ipynb".data) = none) :
    edit_file_content st (q ++ ".ipynb".data) [] new_s ts desc commit snippet m
      = (setFile st (q ++ ".ipynb".data) ⟨write_text_content new_s LineEnding.LF, m⟩, ts,
         createdMsg (q ++ ".ipynb".data)) :=
  edit_create_eq st (q ++ ".ipynb".data) new_s ts desc commit snippet m hnew hmiss

/-- Witness for C10: creating "nb.ipynb" with a supplied table that has
no entry for it; the table comes back unchanged. -/
theorem C10_witness :
    edit_file_content ⟨[]⟩ ("nb".data ++ ".ipynb".data) [] "cells\n".data
        (some [("other.txt".data, 7)]) [] (fun _ _ => (true, [])) (fun _ _ _ => []) 4
      = (setFile ⟨[]⟩ ("nb".data ++ ".ipynb".data)
          ⟨write_text_content "cells\n".data LineEnding.LF, 4⟩,
         some [("other.txt".data, 7)], createdMsg ("nb".data ++ ".ipynb".data)) :=
  C10_create_unchecked ⟨[]⟩ "nb".data "cells\n".data (some [("other.txt".data, 7)]) []
    (fun _ _ => (true, [])) (fun _ _ _ => []) 4 (by decide) rfl

/-- Claim C4 (amended): when the supplied timestamp table is non-empty,
a missing entry for the path yields the NeverRead error, and an entry
strictly older than the file's modification time yields the Stale
error; in both cases nothing changes.  (A supplied empty table disables
both checks because Python's truthiness test treats it like None; see
C4_counterexample.) -/
theorem C4_freshness (st : SysState) (p S T : Str) (l : Timestamps) (desc : Str)
    (commit : Str → Str → Bool × Str) (snippet : Str → Str → Str → Str) (m : Nat)
    (fi : FileInfo)
    (hf : lookupFile st p = some fi) (hS : S ≠ []) (hST : S ≠ T)
    (hnb : List.isSuffixOf ".ipynb".data p = false) :
    (l ≠ [] → tsLookup l p = none →
      edit_file_content st p S T (some l) desc commit snippet m = (st, some l, neverReadMsg)) ∧
    (∀ t, tsLookup l p = some t → t < fi.mtime →
      edit_file_content st p S T (some l) desc commit snippet m = (st, some l, staleMsg)) := by
  constructor
  · intro hl hlook
    have htr : tsTruthy (some l) = true := by
      cases l with
      | nil => exact absurd rfl hl
      | cons a r => rfl
    have hhs : tsHas (some l) p = false := by simp [tsHas, hlook]
    simp [edit_file_content, hf, hST, hS, hnb, htr, hhs]
  · intro t hlook hlt
    have htr : tsTruthy (some l) = true := by
      cases l with
      | nil => simp [tsLookup] at hlook
      | cons a r => rfl
    have hhs : tsHas (some l) p = true := by simp [tsHas, hlook]
    have hget : tsGetD (some l) p 0 = t := by simp [tsGetD, hlook]
    simp [edit_file_content, hf, hST, hS, hnb, htr, hhs, hget, hlt]

/-- Witness for C4 at concrete inputs: a non-empty table without the
path's entry gives NeverRead; a table whose entry is older than the
file's modification time gives Stale. -/
theorem C4_witness :
    edit_file_content ⟨[("f.txt".data, ⟨"bar".data, 7⟩)]⟩ "f.txt".data "bar".data "baz".data
        (some [("g.txt".data, 5)]) [] (fun _ _ => (true, [])) (fun _ _ _ => []) 9
      = (⟨[("f.txt".data, ⟨"bar".data, 7⟩)]⟩, some [("g.txt".data, 5)], neverReadMsg) ∧
    edit_file_content ⟨[("f.txt".data, ⟨"bar".data, 7⟩)]⟩ "f.txt".data "bar".data "baz".data
        (some [("f.txt".data, 3)]) [] (fun _ _ => (true, [])) (fun _ _ _ => []) 9
      = (⟨[("f.txt".data, ⟨"bar".data, 7⟩)]⟩, some [("f.txt".data, 3)], staleMsg) :=
  ⟨(C4_freshness ⟨[("f.txt".data, ⟨"bar".data, 7⟩)]⟩ "f.txt".data "bar".data "baz".data
      [("g.txt".data, 5)] [] (fun _ _ => (true, [])) (fun _ _ _ => []) 9 ⟨"bar".data, 7⟩
      (by decide) (by decide) (by decide) (by decide)).1 (by decide) (by decide),
   (C4_freshness ⟨[("f.txt".data, ⟨"bar".data, 7⟩)]⟩ "f.txt".data "bar".data "baz".data
      [("f.txt".data, 3)] [] (fun _ _ => (true, [])) (fun _ _ _ => []) 9 ⟨"bar".data, 7⟩
      (by decide) (by decide) (by decide) (by decide)).2 3 (by decide) (by decide)⟩

/-- Counterexample to C4 as stated: a supplied but empty timestamp table
has no entry for the path, yet the operation does not fail with
NeverRead — Python's truthiness test skips both freshness checks, the
edit succeeds, and the write even inserts a fresh entry into the
table. -/
theorem C4_counterexample :
    (edit_file_content ⟨[("t.txt".data, ⟨"foo\nbar\n".data, 0⟩)]⟩ "t.txt".data "bar".data
        "baz".data (some []) [] (fun _ _ => (true, [])) (fun _ _ _ => []) 5).2.2 ≠ neverReadMsg ∧
    "Successfully edited ".data.isPrefixOf
      (edit_file_content ⟨[("t.txt".data, ⟨"foo\nbar\n".data, 0⟩)]⟩ "t.txt".data "bar".data
        "baz".data (some []) [] (fun _ _ => (true, [])) (fun _ _ _ => []) 5).2.2 = true ∧
    lookupFile (edit_file_content ⟨[("t.txt".data, ⟨"foo\nbar\n".data, 0⟩)]⟩ "t.txt".data
        "bar".data "baz".data (some []) [] (fun _ _ => (true, [])) (fun _ _ _ => []) 5).1
        "t.txt".data
      = some ⟨"foo\nbaz\n".data, 5⟩ := by
  decide

/-- Claim C2 (amended): with all ambient preconditions met, (a) when
`old_string` has no occurrence in the read content and the
whitespace-normalized content does not contain the whitespace-normalized
`old_string` either, the call fails with NotFoundInContent and nothing
changes; (b) when Python's non-overlapping occurrence count of
`old_string` is at least two, the call fails with AmbiguousMatch
reporting that count — regardless of what the fallback would find — and
nothing changes. -/
theorem C2_zero_or_multi (st : SysState) (p S T : Str) (ts : Option Timestamps) (desc : Str)
    (commit : Str → Str → Bool × Str) (snippet : Str → Str → Str → Str) (m : Nat)
    (fi : FileInfo)
    (hf : lookupFile st p = some fi) (hS : S ≠ []) (hST : S ≠ T)
    (hnb : List.isSuffixOf ".ipynb".data p = false)
    (hts1 : tsTruthy ts = true → tsHas ts p = true)
    (hts2 : tsTruthy ts = true → fi.mtime ≤ tsGetD ts p 0) :
    (pyContains (univNl fi.data) S = false →
      pyContains (joinNl ((splitNl (univNl fi.data)).map rstrip))
          (joinNl ((splitNl S).map rstrip)) = false →
      edit_file_content st p S T ts desc commit snippet m = (st, ts, notFoundMsg)) ∧
    (2 ≤ pyCount S (univNl fi.data) →
      edit_file_content st p S T ts desc commit snippet m
        = (st, ts, ambiguousMsg (pyCount S (univNl fi.data)))) := by
  constructor
  · intro hcont hnorm
    exact edit_fallback_notfound st p S T ts desc commit snippet m fi hf hST hS hnb hts1 hts2
      hcont hnorm
  · intro h2
    have hcont : pyContains (univNl fi.data) S = true := by
      cases S with
      | nil => exact absurd rfl hS
      | cons n ns =>
        cases hx : pyContains (univNl fi.data) (n :: ns) with
        | true => rfl
        | false => rw [pyCount_eq_zero hx] at h2; omega
    rw [edit_main_path st p S T ts desc commit snippet m fi hf hST hS hnb hts1 hts2 hcont]
    exact phase_ambiguous st p S T ts desc commit snippet m _ _ hS (by omega)

/-- Witness for C2: a string absent even after right-trimming gives the
NotFound message; the spec scenario "bar\nbar\n" with old "bar" gives
AmbiguousMatch(2). -/
theorem C2_witness :
    edit_file_content ⟨[("f.txt".data, ⟨"hello".data, 0⟩)]⟩ "f.txt".data "xyz".data "q".data
        none [] (fun _ _ => (true, [])) (fun _ _ _ => []) 1
      = (⟨[("f.txt".data, ⟨"hello".data, 0⟩)]⟩, none, notFoundMsg) ∧
    edit_file_content ⟨[("g.txt".data, ⟨"bar\nbar\n".data, 0⟩)]⟩ "g.txt".data "bar".data
        "baz".data none [] (fun _ _ => (true, [])) (fun _ _ _ => []) 1
      = (⟨[("g.txt".data, ⟨"bar\nbar\n".data, 0⟩)]⟩, none, ambiguousMsg 2) := by
  constructor
  · exact (C2_zero_or_multi ⟨[("f.txt".data, ⟨"hello".data, 0⟩)]⟩ "f.txt".data "xyz".data
      "q".data none [] (fun _ _ => (true, [])) (fun _ _ _ => []) 1 ⟨"hello".data, 0⟩
      (by decide) (by decide) (by decide) (by decide) (by intro h; cases h)
      (by intro h; cases h)).1 (by decide) (by decide)
  · have h := (C2_zero_or_multi ⟨[("g.txt".data, ⟨"bar\nbar\n".data, 0⟩)]⟩ "g.txt".data
      "bar".data "baz".data none [] (fun _ _ => (true, [])) (fun _ _ _ => []) 1
      ⟨"bar\nbar\n".data, 0⟩ (by decide) (by decide) (by decide) (by decide)
      (by intro h; cases h) (by intro h; cases h)).2 (by decide)
    have e : pyCount "bar".data (univNl "bar\nbar\n".data) = 2 := by decide
    rw [e] at h
    exact h

/-- Counterexample to C2 as stated: "aa" occurs at two positions of
"aaa" (overlapping), yet Python's non-overlapping count is 1, so the
code does not fail with AmbiguousMatch — it edits the file to "ba". -/
theorem C2_counterexample :
    posCount "aa".data "aaa".data = 2 ∧
    (edit_file_content ⟨[("f.txt".data, ⟨"aaa".data, 0⟩)]⟩ "f.txt".data "aa".data "b".data
        none [] (fun _ _ => (true, [])) (fun _ _ _ => []) 1).2.2 ≠ ambiguousMsg 2 ∧
    "Successfully edited ".data.isPrefixOf
      (edit_file_content ⟨[("f.txt".data, ⟨"aaa".data, 0⟩)]⟩ "f.txt".data "aa".data "b".data
        none [] (fun _ _ => (true, [])) (fun _ _ _ => []) 1).2.2 = true ∧
    lookupFile (edit_file_content ⟨[("f.txt".data, ⟨"aaa".data, 0⟩)]⟩ "f.txt".data "aa".data
        "b".data none [] (fun _ _ => (true, [])) (fun _ _ _ => []) 1).1 "f.txt".data
      = some ⟨"ba".data, 1⟩ := by
  decide

theorem phase_message_shape (st : SysState) (p o n : Str) (ts : Option Timestamps) (desc : Str)
    (commit : Str → Str → Bool × Str) (snippet : Str → Str → Str → Str) (m : Nat)
    (content : Str) (le : LineEnding) :
    messageShapeOK (edit_apply_phase st p o n ts desc commit snippet m content le).2.2 := by
  have hb : "Error: ".data.isPrefixOf "Error: Found ".data = true := by decide
  by_cases hc : o ≠ [] ∧ 1 < pyCount o content
  · have hpre : "Error: ".data.isPrefixOf (ambiguousMsg (pyCount o content)) = true := by
      unfold ambiguousMsg
      exact isPrefixOf_append_of _ hb
    simp only [edit_apply_phase, if_pos hc]
    unfold messageShapeOK
    right; right; left
    exact hpre
  · cases hap : apply_edit st p o n with
    | none =>
      simp only [edit_apply_phase, if_neg hc, hap]
      unfold messageShapeOK
      right; right; right; left
      decide
    | some pr =>
      obtain ⟨patch, updated⟩ := pr
      simp only [edit_apply_phase, if_neg hc, hap]
      unfold messageShapeOK
      right; left
      exact editedMsg_starts p (snippet content o n) (gitMsg (commit p desc) desc)

/-- Claim C8 (amended): every result message begins with "Successfully
created ", "Successfully edited ", "Error: " or "Error editing file: ",
except the NoOp message and the AlreadyExists message, which are
returned verbatim and carry no "Error" prefix. -/
theorem C8_message_shape (st : SysState) (p old_s new_s : Str) (ts : Option Timestamps)
    (desc : Str) (commit : Str → Str → Bool × Str) (snippet : Str → Str → Str → Str) (m : Nat) :
    messageShapeOK (edit_file_content st p old_s new_s ts desc commit snippet m).2.2 := by
  have hbE : "Error: ".data.isPrefixOf "Error: File does not exist: ".data = true := by decide
  by_cases h1 : old_s = new_s
  · simp [edit_file_content, h1, messageShapeOK]
  · by_cases h2 : old_s = []
    · subst h2
      cases hf : lookupFile st p with
      | some fi => simp [edit_file_content, h1, hf, messageShapeOK]
      | none =>
        simp only [edit_file_content, if_neg h1, if_pos rfl, hf]
        unfold messageShapeOK
        left
        exact isPrefixOf_self_append _ _
    · cases hf : lookupFile st p with
      | none =>
        have hpre : "Error: ".data.isPrefixOf (fileMissingMsg st p) = true := by
          unfold fileMissingMsg
          cases find_similar_file st p with
          | none => exact isPrefixOf_append_of _ hbE
          | some s => exact isPrefixOf_append_of _ hbE
        simp only [edit_file_content, if_neg h1, if_neg h2, hf]
        unfold messageShapeOK
        right; right; left
        exact hpre
      | some fi =>
        by_cases h3 : List.isSuffixOf ".ipynb".data p = true
        · simp only [edit_file_content, if_neg h1, if_neg h2, hf, if_pos h3]
          unfold messageShapeOK
          right; right; left
          decide
        · by_cases h4 : tsTruthy ts = true ∧ tsHas ts p = false
          · simp only [edit_file_content, if_neg h1, if_neg h2, hf, if_neg h3, if_pos h4]
            unfold messageShapeOK
            right; right; left
            decide
          · by_cases h5 : tsTruthy ts = true ∧ tsGetD ts p 0 < fi.mtime
            · simp only [edit_file_content, if_neg h1, if_neg h2, hf, if_neg h3, if_neg h4,
                if_pos h5]
              unfold messageShapeOK
              right; right; left
              decide
            · by_cases h6 : old_s ≠ [] ∧ pyContains (univNl fi.data) old_s = false
              · by_cases h7 : pyContains (joinNl ((splitNl (univNl fi.data)).map rstrip))
                    (joinNl ((splitNl old_s).map rstrip)) = true
                · simp only [edit_file_content, if_neg h1, if_neg h2, hf, if_neg h3,
                    if_neg h4, if_neg h5, if_pos h6, if_pos h7]
                  exact phase_message_shape _ _ _ _ _ _ _ _ _ _ _
                · simp only [edit_file_content, if_neg h1, if_neg h2, hf, if_neg h3,
                    if_neg h4, if_neg h5, if_pos h6, if_neg h7]
                  unfold messageShapeOK
                  right; right; left
                  decide
              · simp only [edit_file_content, if_neg h1, if_neg h2, hf, if_neg h3,
                  if_neg h4, if_neg h5, if_neg h6]
                exact phase_message_shape _ _ _ _ _ _ _ _ _ _ _

/-- Counterexample to C8 as stated: the AlreadyExists failure message is
"Cannot create new file - file already exists.", which begins with
neither "Error:" nor "Error editing file:". -/
theorem C8_counterexample :
    (edit_file_content ⟨[("a.txt".data, ⟨"x".data, 0⟩)]⟩ "a.txt".data [] "y".data none []
        (fun _ _ => (true, [])) (fun _ _ _ => []) 1).2.2 = cannotCreateMsg ∧
    "Error:".data.isPrefixOf cannotCreateMsg = false ∧
    "Error editing file:".data.isPrefixOf cannotCreateMsg = false ∧
    "Successfully".data.isPrefixOf cannotCreateMsg = false := by
  decide

theorem not_succEdited_ambiguous (k : Nat) :
    "Successfully edited ".data.isPrefixOf (ambiguousMsg k) = false := by
  have h1 : "Error: Found ".data.isPrefixOf "Successfully edited ".data = false := by decide
  have h2 : "Successfully edited ".data.isPrefixOf "Error: Found ".data = false := by decide
  unfold ambiguousMsg
  exact isPrefixOf_append_eq_false _ h1 h2

theorem not_succEdited_created (p : Str) :
    "Successfully edited ".data.isPrefixOf (createdMsg p) = false := by
  have h1 : "Successfully created ".data.isPrefixOf "Successfully edited ".data = false := by
    decide
  have h2 : "Successfully edited ".data.isPrefixOf "Successfully created ".data = false := by
    decide
  unfold createdMsg
  exact isPrefixOf_append_eq_false _ h1 h2

theorem not_succEdited_fileMissing (st : SysState) (p : Str) :
    "Successfully edited ".data.isPrefixOf (fileMissingMsg st p) = false := by
  have h1 : "Error: File does not exist: ".data.isPrefixOf "Successfully edited ".data
      = false := by decide
  have h2 : "Successfully edited ".data.isPrefixOf "Error: File does not exist: ".data
      = false := by decide
  unfold fileMissingMsg
  cases find_similar_file st p with
  | none => exact isPrefixOf_append_eq_false _ h1 h2
  | some s => exact isPrefixOf_append_eq_false _ h1 h2

theorem phase_commit_shape (st : SysState) (p o n : Str) (ts : Option Timestamps) (desc : Str)
    (c1 c2 : Str → Str → Bool × Str) (snippet : Str → Str → Str → Str) (m : Nat)
    (content : Str) (le : LineEnding) :
    (edit_apply_phase st p o n ts desc c1 snippet m content le).1
      = (edit_apply_phase st p o n ts desc c2 snippet m content le).1 ∧
    (edit_apply_phase st p o n ts desc c1 snippet m content le).2.1
      = (edit_apply_phase st p o n ts desc c2 snippet m content le).2.1 ∧
    ("Successfully edited ".data.isPrefixOf
        (edit_apply_phase st p o n ts desc c1 snippet m content le).2.2
      = "Successfully edited ".data.isPrefixOf
        (edit_apply_phase st p o n ts desc c2 snippet m content le).2.2) ∧
    (∀ cm, c1 p desc = (false, cm) →
      "Successfully edited ".data.isPrefixOf
        (edit_apply_phase st p o n ts desc c1 snippet m content le).2.2 = true →
      ∃ front, (edit_apply_phase st p o n ts desc c1 snippet m content le).2.2
        = front ++ ("\n\nFailed to commit changes to git: ".data ++ cm)) := by
  by_cases hc : o ≠ [] ∧ 1 < pyCount o content
  · simp only [edit_apply_phase, if_pos hc]
    refine ⟨by trivial, by trivial, by trivial, ?_⟩
    intro cm hcm hpre
    have hx : "Successfully edited ".data.isPrefixOf (ambiguousMsg (pyCount o content))
        = true := hpre
    rw [not_succEdited_ambiguous] at hx
    cases hx
  · cases hap : apply_edit st p o n with
    | none =>
      simp only [edit_apply_phase, if_neg hc, hap]
      refine ⟨by trivial, by trivial, by trivial, ?_⟩
      intro cm hcm hpre
      have hx : "Successfully edited ".data.isPrefixOf emptySepMsg = true := hpre
      rw [show "Successfully edited ".data.isPrefixOf emptySepMsg = false from by decide] at hx
      cases hx
    | some pr =>
      obtain ⟨patch, updated⟩ := pr
      simp only [edit_apply_phase, if_neg hc, hap]
      refine ⟨by trivial, by trivial, ?_, ?_⟩
      · rw [editedMsg_starts, editedMsg_starts]
      · intro cm hcm _
        refine ⟨"Successfully edited ".data ++ p ++ "\n\nHere".data
          ++ '\x27' :: "s a snippet of the edited file:\n".data ++ snippet content o n, ?_⟩
        simp [editedMsg, gitMsg, hcm, List.append_assoc]

/-- Claim C7: the commit collaborator's outcome never changes the final
filesystem or the timestamp table, nor whether the result is a
successful edit; and when the commit fails, its message is attached
only as the "Failed to commit changes to git" suffix of the otherwise
successful message. -/
theorem C7_commit_nonfatal (st : SysState) (p S T : Str) (ts : Option Timestamps) (desc : Str)
    (c1 c2 : Str → Str → Bool × Str) (snippet : Str → Str → Str → Str) (m : Nat) :
    (edit_file_content st p S T ts desc c1 snippet m).1
      = (edit_file_content st p S T ts desc c2 snippet m).1 ∧
    (edit_file_content st p S T ts desc c1 snippet m).2.1
      = (edit_file_content st p S T ts desc c2 snippet m).2.1 ∧
    ("Successfully edited ".data.isPrefixOf (edit_file_content st p S T ts desc c1 snippet m).2.2
      = "Successfully edited ".data.isPrefixOf
        (edit_file_content st p S T ts desc c2 snippet m).2.2) ∧
    (∀ cm, c1 p desc = (false, cm) →
      "Successfully edited ".data.isPrefixOf
        (edit_file_content st p S T ts desc c1 snippet m).2.2 = true →
      ∃ front, (edit_file_content st p S T ts desc c1 snippet m).2.2
        = front ++ ("\n\nFailed to commit changes to git: ".data ++ cm)) := by
  by_cases h1 : S = T
  · simp only [edit_file_content, if_pos h1]
    refine ⟨by trivial, by trivial, by trivial, ?_⟩
    intro cm hcm hpre
    have hx : "Successfully edited ".data.isPrefixOf noChangesMsg = true := hpre
    rw [show "Successfully edited ".data.isPrefixOf noChangesMsg = false from by decide] at hx
    cases hx
  · by_cases h2 : S = []
    · subst h2
      cases hf : lookupFile st p with
      | some fi =>
        simp only [edit_file_content, if_neg h1, if_pos rfl, hf]
        refine ⟨by trivial, by trivial, by trivial, ?_⟩
        intro cm hcm hpre
        have hx : "Successfully edited ".data.isPrefixOf cannotCreateMsg = true := hpre
        rw [show "Successfully edited ".data.isPrefixOf cannotCreateMsg = false from by decide]
          at hx
        cases hx
      | none =>
        simp only [edit_file_content, if_neg h1, if_pos rfl, hf]
        refine ⟨by trivial, by trivial, by trivial, ?_⟩
        intro cm hcm hpre
        have hx : "Successfully edited ".data.isPrefixOf (createdMsg p) = true := hpre
        rw [not_succEdited_created] at hx
        cases hx
    · cases hf : lookupFile st p with
      | none =>
        simp only [edit_file_content, if_neg h1, if_neg h2, hf]
        refine ⟨by trivial, by trivial, by trivial, ?_⟩
        intro cm hcm hpre
        have hx : "Successfully edited ".data.isPrefixOf (fileMissingMsg st p) = true := hpre
        rw [not_succEdited_fileMissing] at hx
        cases hx
      | some fi =>
        by_cases h3 : List.isSuffixOf ".ipynb".data p = true
        · simp only [edit_file_content, if_neg h1, if_neg h2, hf, if_pos h3]
          refine ⟨by trivial, by trivial, by trivial, ?_⟩
          intro cm hcm hpre
          have hx : "Successfully edited ".data.isPrefixOf notebookMsg = true := hpre
          rw [show "Successfully edited ".data.isPrefixOf notebookMsg = false from by decide]
            at hx
          cases hx
        · by_cases h4 : tsTruthy ts = true ∧ tsHas ts p = false
          · simp only [edit_file_content, if_neg h1, if_neg h2, hf, if_neg h3, if_pos h4]
            refine ⟨by trivial, by trivial, by trivial, ?_⟩
            intro cm hcm hpre
            have hx : "Successfully edited ".data.isPrefixOf neverReadMsg = true := hpre
            rw [show "Successfully edited ".data.isPrefixOf neverReadMsg = false from by decide]
              at hx
            cases hx
          · by_cases h5 : tsTruthy ts = true ∧ tsGetD ts p 0 < fi.mtime
            · simp only [edit_file_content, if_neg h1, if_neg h2, hf, if_neg h3, if_neg h4,
                if_pos h5]
              refine ⟨by trivial, by trivial, by trivial, ?_⟩
              intro cm hcm hpre
              have hx : "Successfully edited ".data.isPrefixOf staleMsg = true := hpre
              rw [show "Successfully edited ".data.isPrefixOf staleMsg = false from by decide]
                at hx
              cases hx
            · by_cases h6 : S ≠ [] ∧ pyContains (univNl fi.data) S = false
              · by_cases h7 : pyContains (joinNl ((splitNl (univNl fi.data)).map rstrip))
                    (joinNl ((splitNl S).map rstrip)) = true
                · simp only [edit_file_content, if_neg h1, if_neg h2, hf, if_neg h3,
                    if_neg h4, if_neg h5, if_pos h6, if_pos h7]
                  exact phase_commit_shape _ _ _ _ _ _ _ _ _ _ _ _
                · simp only [edit_file_content, if_neg h1, if_neg h2, hf, if_neg h3,
                    if_neg h4, if_neg h5, if_pos h6, if_neg h7]
                  refine ⟨by trivial, by trivial, by trivial, ?_⟩
                  intro cm hcm hpre
                  have hx : "Successfully edited ".data.isPrefixOf notFoundMsg = true := hpre
                  rw [show "Successfully edited ".data.isPrefixOf notFoundMsg = false from
                    by decide] at hx
                  cases hx
              · simp only [edit_file_content, if_neg h1, if_neg h2, hf, if_neg h3,
                  if_neg h4, if_neg h5, if_neg h6]
                exact phase_commit_shape _ _ _ _ _ _ _ _ _ _ _ _

/-- Witness for C7 at a concrete edit: a failing commit and a
succeeding commit yield the same filesystem and table, both report a
successful edit, and the failing run carries the failure suffix. -/
theorem C7_witness :
    (edit_file_content ⟨[("f.txt".data, ⟨"abc".data, 0⟩)]⟩ "f.txt".data "b".data "z".data none
        "d".data (fun _ _ => (false, "boom".data)) (fun _ _ _ => []) 2).1
      = (edit_file_content ⟨[("f.txt".data, ⟨"abc".data, 0⟩)]⟩ "f.txt".data "b".data "z".data
        none "d".data (fun _ _ => (true, [])) (fun _ _ _ => []) 2).1 ∧
    (∃ front, (edit_file_content ⟨[("f.txt".data, ⟨"abc".data, 0⟩)]⟩ "f.txt".data "b".data
        "z".data none "d".data (fun _ _ => (false, "boom".data)) (fun _ _ _ => []) 2).2.2
      = front ++ ("\n\nFailed to commit changes to git: ".data ++ "boom".data)) :=
  ⟨(C7_commit_nonfatal ⟨[("f.txt".data, ⟨"abc".data, 0⟩)]⟩ "f.txt".data "b".data "z".data none
      "d".data (fun _ _ => (false, "boom".data)) (fun _ _ => (true, [])) (fun _ _ _ => []) 2).1,
   (C7_commit_nonfatal ⟨[("f.txt".data, ⟨"abc".data, 0⟩)]⟩ "f.txt".data "b".data "z".data none
      "d".data (fun _ _ => (false, "boom".data)) (fun _ _ => (true, [])) (fun _ _ _ => []) 2).2.2.2
      "boom".data rfl (by decide)⟩

/-- Claim C9 (amended): for content whose line breaks are only LF or
CRLF, writing with LF style leaves no carriage return at all in the
output (so every line break is a single line feed); writing with CRLF
style makes every line break the two-character CRLF sequence provided
the content contains no carriage return already — an input that already
contains CRLF is mangled into CR CR LF (see C9_counterexample). -/
theorem C9_line_endings :
    (∀ content : Str, noBareCR content = true →
      hasChar '\r' (write_text_content content LineEnding.LF) = false) ∧
    (∀ content : Str, hasChar '\r' content = false →
      breaksAreCRLF (write_text_content content LineEnding.CRLF) = true) := by
  constructor
  · intro content h
    exact lf_write_noCR content.length content h (Nat.le_refl _)
  · intro content h
    exact crlf_write_breaks content.length content h (Nat.le_refl _)

/-- Witness for C9: a mixed CRLF/LF text is fully LF-normalized, and a
pure-LF text is fully CRLF-normalized. -/
theorem C9_witness :
    hasChar '\r' (write_text_content "a\r\nb\nc".data LineEnding.LF) = false ∧
    breaksAreCRLF (write_text_content "x\ny".data LineEnding.CRLF) = true :=
  ⟨C9_line_endings.1 "a\r\nb\nc".data (by decide),
   C9_line_endings.2 "x\ny".data (by decide)⟩

/-- Counterexample to C9 as stated: the input "a\r\nb" mixes line-break
styles (it contains CRLF), and CRLF-normalizing it yields "a\r\r\nb",
in which the line break is NOT the two-character CRLF sequence — a bare
CR precedes it. -/
theorem C9_counterexample :
    noBareCR "a\r\nb".data = true ∧
    write_text_content "a\r\nb".data LineEnding.CRLF = "a\r\r\nb".data ∧
    breaksAreCRLF "a\r\r\nb".data = false := by
  decide

/-- Claim C1 (amended): for a file whose content C and a replacement T
contain no carriage returns, and a nonempty `old_string` S distinct
from T occurring at exactly one position of C, with all other
preconditions met, the edit rewrites the file to C with that single
occurrence replaced by T — byte-for-byte unchanged elsewhere — reports
success, and `apply_edit` emits a single hunk whose oldStart and
newStart are one plus the number of line breaks preceding the match,
and whose oldLines/newLines are the line counts of S and T. -/
theorem C1_unique_replace (st : SysState) (p S T : Str) (ts : Option Timestamps) (desc : Str)
    (commit : Str → Str → Bool × Str) (snippet : Str → Str → Str → Str) (m : Nat)
    (fi : FileInfo)
    (hf : lookupFile st p = some fi)
    (hcr : hasChar '\r' fi.data = false)
    (hcrT : hasChar '\r' T = false)
    (honce : posCount S fi.data = 1)
    (hS : S ≠ []) (hST : S ≠ T)
    (hnb : List.isSuffixOf ".ipynb".data p = false)
    (hts1 : tsTruthy ts = true → tsHas ts p = true)
    (hts2 : tsTruthy ts = true → fi.mtime ≤ tsGetD ts p 0) :
    ∃ pre post,
      fi.data = pre ++ S ++ post ∧
      lookupFile (edit_file_content st p S T ts desc commit snippet m).1 p
        = some ⟨pre ++ T ++ post, m⟩ ∧
      "Successfully edited ".data.isPrefixOf
        (edit_file_content st p S T ts desc commit snippet m).2.2 = true ∧
      ∃ h : Hunk, apply_edit st p S T = some ([h], pre ++ T ++ post) ∧
        h.oldStart = pre.count '\n' + 1 ∧ h.newStart = pre.count '\n' + 1 ∧
        h.oldLines = (splitNl S).length ∧ h.newLines = (splitNl T).length := by
  obtain ⟨n, ns, rfl⟩ : ∃ n ns, S = n :: ns := by
    cases S with
    | nil => exact absurd rfl hS
    | cons n ns => exact ⟨n, ns, rfl⟩
  have hcontent : univNl fi.data = fi.data := univNl_of_noCR _ hcr
  have hcont : pyContains fi.data (n :: ns) = true := pyContains_of_posCount_one honce
  have hcont' : pyContains (univNl fi.data) (n :: ns) = true := by rw [hcontent]; exact hcont
  obtain ⟨pre, post, hdec, hrepl, hpb⟩ := firstOcc_decomp n ns T fi.data hcont
  have hcount1 : pyCount (n :: ns) fi.data = 1 := pyCount_eq_one honce
  have hcnt : ¬(1 < pyCount (n :: ns) (univNl fi.data)) := by
    rw [hcontent, hcount1]; omega
  have hparts : hasChar '\r' pre = false ∧ hasChar '\r' post = false := by
    have hx := hcr
    rw [hdec, hasChar_append, hasChar_append] at hx
    simp only [Bool.or_eq_false_iff] at hx
    exact ⟨hx.1.1, hx.2⟩
  have hupd : hasChar '\r' (pre ++ T ++ post) = false := by
    rw [hasChar_append, hasChar_append]
    simp [hparts.1, hparts.2, hcrT]
  have hle : detect_line_endings fi.data = LineEnding.LF := detect_of_noCR _ hcr
  have hwrite : write_text_content (pre ++ T ++ post) LineEnding.LF = pre ++ T ++ post :=
    write_LF_id _ hupd
  have hmain := edit_main_path st p (n :: ns) T ts desc commit snippet m fi hf hST hS hnb
    hts1 hts2 hcont'
  have hphase := phase_write st p (n :: ns) T ts desc commit snippet m (univNl fi.data)
    (detect_line_endings fi.data) fi hf (Or.inr hS) hcnt
  refine ⟨pre, post, hdec, ?_, ?_, ?_⟩
  · rw [hmain, hphase, hcontent, hrepl, hle, hwrite]
    exact lookupFile_setFile_self st p ⟨pre ++ T ++ post, m⟩
  · rw [hmain, hphase]
    exact editedMsg_starts p _ _
  · refine ⟨⟨pre.count '\n' + 1, (splitNl (n :: ns)).length, pre.count '\n' + 1,
      (splitNl T).length,
      (splitNl (n :: ns)).map (fun l => '-' :: l) ++ (splitNl T).map (fun l => '+' :: l)⟩,
      ?_, rfl, rfl, rfl, rfl⟩
    simp [apply_edit, hf, hcontent, hST, hpb, hrepl]

/-- Witness for C1 at the spec's scenario: a file "foo\nbar\n", edit
bar to baz; the result file is "foo\nbaz\n" and the hunk starts at line
2 with one old line and one new line. -/
theorem C1_witness :
    ∃ pre post,
      "foo\nbar\n".data = pre ++ "bar".data ++ post ∧
      lookupFile (edit_file_content ⟨[("t.txt".data, ⟨"foo\nbar\n".data, 0⟩)]⟩ "t.txt".data
          "bar".data "baz".data none [] (fun _ _ => (true, [])) (fun _ _ _ => []) 1).1
          "t.txt".data
        = some ⟨pre ++ "baz".data ++ post, 1⟩ ∧
      "Successfully edited ".data.isPrefixOf
        (edit_file_content ⟨[("t.txt".data, ⟨"foo\nbar\n".data, 0⟩)]⟩ "t.txt".data "bar".data
          "baz".data none [] (fun _ _ => (true, [])) (fun _ _ _ => []) 1).2.2 = true ∧
      ∃ h : Hunk, apply_edit ⟨[("t.txt".data, ⟨"foo\nbar\n".data, 0⟩)]⟩ "t.txt".data "bar".data
          "baz".data = some ([h], pre ++ "baz".data ++ post) ∧
        h.oldStart = pre.count '\n' + 1 ∧ h.newStart = pre.count '\n' + 1 ∧
        h.oldLines = (splitNl "bar".data).length ∧ h.newLines = (splitNl "baz".data).length :=
  C1_unique_replace ⟨[("t.txt".data, ⟨"foo\nbar\n".data, 0⟩)]⟩ "t.txt".data "bar".data
    "baz".data none [] (fun _ _ => (true, [])) (fun _ _ _ => []) 1 ⟨"foo\nbar\n".data, 0⟩
    (by decide) (by decide) (by decide) (by decide) (by decide) (by decide) (by decide)
    (by intro h; cases h) (by intro h; cases h)

/-- Counterexample to C1 as stated: in the mixed-endings file
"a\nb\r\nc\n" the string "b" occurs exactly once, yet the edit rewrites
the whole file with CRLF endings, "a\r\nz\r\nc\r\n", which differs from
the claimed result (the content with only that occurrence replaced,
"a\nz\r\nc\n"). -/
theorem C1_counterexample :
    posCount "b".data "a\nb\r\nc\n".data = 1 ∧
    lookupFile (edit_file_content ⟨[("f.txt".data, ⟨"a\nb\r\nc\n".data, 0⟩)]⟩ "f.txt".data
        "b".data "z".data none [] (fun _ _ => (true, [])) (fun _ _ _ => []) 1).1 "f.txt".data
      = some ⟨"a\r\nz\r\nc\r\n".data, 1⟩ ∧
    "a\r\nz\r\nc\r\n".data ≠ replaceFirst "a\nb\r\nc\n".data "b".data "z".data := by
  decide

/-- Claim C3 (amended): when `old_string` has no exact occurrence in a
CR-free file content but the whitespace-tolerant fallback locates a
first window of consecutive lines matching it after right-trimming, and
that window's un-normalized text A is non-empty and occurs exactly once
(by Python's count) in the content, the edit succeeds and the text
actually replaced is A — the file's real, untrimmed text — not the
caller's expected text. -/
theorem C3_whitespace_fallback (st : SysState) (p S T : Str) (ts : Option Timestamps)
    (desc : Str) (commit : Str → Str → Bool × Str) (snippet : Str → Str → Str → Str) (m : Nat)
    (fi : FileInfo) (A : Str)
    (hf : lookupFile st p = some fi)
    (hcr : hasChar '\r' fi.data = false)
    (hcrT : hasChar '\r' T = false)
    (hS : S ≠ []) (hST : S ≠ T)
    (hnb : List.isSuffixOf ".ipynb".data p = false)
    (hts1 : tsTruthy ts = true → tsHas ts p = true)
    (hts2 : tsTruthy ts = true → fi.mtime ≤ tsGetD ts p 0)
    (hnotin : pyContains fi.data S = false)
    (hnorm : pyContains (joinNl ((splitNl fi.data).map rstrip))
        (joinNl ((splitNl S).map rstrip)) = true)
    (hA : findActual (splitNl S) (splitNl fi.data) = some A)
    (hAne : A ≠ [])
    (hAuniq : pyCount A fi.data = 1) :
    lookupFile (edit_file_content st p S T ts desc commit snippet m).1 p
      = some ⟨replaceFirst fi.data A T, m⟩ ∧
    "Successfully edited ".data.isPrefixOf
      (edit_file_content st p S T ts desc commit snippet m).2.2 = true := by
  have hcontent : univNl fi.data = fi.data := univNl_of_noCR _ hcr
  have hnotin' : pyContains (univNl fi.data) S = false := by rw [hcontent]; exact hnotin
  have hnorm' : pyContains (joinNl ((splitNl (univNl fi.data)).map rstrip))
      (joinNl ((splitNl S).map rstrip)) = true := by rw [hcontent]; exact hnorm
  have hfb := edit_fallback_found st p S T ts desc commit snippet m fi hf hST hS hnb hts1 hts2
    hnotin' hnorm'
  have hgetD : (findActual (splitNl S) (splitNl (univNl fi.data))).getD S = A := by
    rw [hcontent, hA]; rfl
  rw [hgetD] at hfb
  obtain ⟨a, as, rfl⟩ : ∃ a as, A = a :: as := by
    cases A with
    | nil => exact absurd rfl hAne
    | cons a as => exact ⟨a, as, rfl⟩
  have hcontA : pyContains fi.data (a :: as) = true := by
    cases hx : pyContains fi.data (a :: as) with
    | true => rfl
    | false => rw [pyCount_eq_zero hx] at hAuniq; cases hAuniq
  have hcnt : ¬(1 < pyCount (a :: as) (univNl fi.data)) := by
    rw [hcontent, hAuniq]; omega
  have hphase := phase_write st p (a :: as) T ts desc commit snippet m (univNl fi.data)
    (detect_line_endings fi.data) fi hf (Or.inr hAne) hcnt
  obtain ⟨preA, postA, hdecA, hreplA, _⟩ := firstOcc_decomp a as T fi.data hcontA
  have hparts : hasChar '\r' preA = false ∧ hasChar '\r' postA = false := by
    have hx := hcr
    rw [hdecA, hasChar_append, hasChar_append] at hx
    simp only [Bool.or_eq_false_iff] at hx
    exact ⟨hx.1.1, hx.2⟩
  have hupd : hasChar '\r' (preA ++ T ++ postA) = false := by
    rw [hasChar_append, hasChar_append]
    simp [hparts.1, hparts.2, hcrT]
  have hle : detect_line_endings fi.data = LineEnding.LF := detect_of_noCR _ hcr
  have hwrite : write_text_content (replaceFirst fi.data (a :: as) T) LineEnding.LF
      = replaceFirst fi.data (a :: as) T := by
    rw [hreplA]
    exact write_LF_id _ hupd
  constructor
  · rw [hfb, hphase, hcontent, hle, hwrite]
    exact lookupFile_setFile_self st p ⟨replaceFirst fi.data (a :: as) T, m⟩
  · rw [hfb, hphase]
    exact editedMsg_starts p _ _

/-- Witness for C3 at a concrete input: the file holds "foo  \nbar"
(trailing spaces the caller's expected text lacks); editing with
expected old text "foo\nbar" succeeds and replaces the file's actual
span "foo  \nbar". -/
theorem C3_witness :
    lookupFile (edit_file_content ⟨[("w.txt".data, ⟨"foo  \nbar".data, 0⟩)]⟩ "w.txt".data
        "foo\nbar".data "qux".data none [] (fun _ _ => (true, [])) (fun _ _ _ => []) 1).1
        "w.txt".data
      = some ⟨replaceFirst "foo  \nbar".data "foo  \nbar".data "qux".data, 1⟩ ∧
    "Successfully edited ".data.isPrefixOf
      (edit_file_content ⟨[("w.txt".data, ⟨"foo  \nbar".data, 0⟩)]⟩ "w.txt".data
        "foo\nbar".data "qux".data none [] (fun _ _ => (true, [])) (fun _ _ _ => []) 1).2.2
      = true :=
  C3_whitespace_fallback ⟨[("w.txt".data, ⟨"foo  \nbar".data, 0⟩)]⟩ "w.txt".data
    "foo\nbar".data "qux".data none [] (fun _ _ => (true, [])) (fun _ _ _ => []) 1
    ⟨"foo  \nbar".data, 0⟩ "foo  \nbar".data (by decide) (by decide) (by decide) (by decide)
    (by decide) (by decide) (by intro h; cases h) (by intro h; cases h) (by decide) (by decide)
    (by decide) (by decide) (by decide)

set_option maxRecDepth 4096 in
/-- Counterexample to C3 as stated: the file "x\nx" does not contain
"x " exactly, but matches it after right-trimming; yet the edit does
not succeed — the window text "x" occurs twice, so the call fails with
AmbiguousMatch(2) and the file is unchanged. -/
theorem C3_counterexample :
    pyContains "x\nx".data "x ".data = false ∧
    pyContains (joinNl ((splitNl "x\nx".data).map rstrip))
      (joinNl ((splitNl "x ".data).map rstrip)) = true ∧
    (edit_file_content ⟨[("f.txt".data, ⟨"x\nx".data, 0⟩)]⟩ "f.txt".data "x ".data "y".data
      none [] (fun _ _ => (true, [])) (fun _ _ _ => []) 1).2.2 = ambiguousMsg 2 ∧
    "Successfully edited ".data.isPrefixOf
      (edit_file_content ⟨[("f.txt".data, ⟨"x\nx".data, 0⟩)]⟩ "f.txt".data "x ".data "y".data
        none [] (fun _ _ => (true, [])) (fun _ _ _ => []) 1).2.2 = false ∧
    (edit_file_content ⟨[("f.txt".data, ⟨"x\nx".data, 0⟩)]⟩ "f.txt".data "x ".data "y".data
      none [] (fun _ _ => (true, [])) (fun _ _ _ => []) 1).1
      = ⟨[("f.txt".data, ⟨"x\nx".data, 0⟩)]⟩ := by
  decide
